import Mathlib

/-!
Shallow embedding of the core of the bitwuzla SMT solver (the `bzla`
namespace of the C++ sources) together with proofs that check the
natural-language specification against the code.

Each definition is translated from a concrete function of the C++ source
tree; the source file and function are named in the doc comment.  Parts of
the program whose implementation is not in the source snapshot (only their
declarations or callers are) are modelled from the specification and say so
explicitly in their doc comment.
-/

namespace Bzla

/-! ## Types and terms (`src/type/type.h`, `src/node/node.h`)

The source represents sorts and terms as hash-consed immutable records.
Hash-consing makes pointer equality coincide with structural equality, so
the embedding uses plain inductive types with structural equality.
-/

/-- Sort descriptor: Bool, BV(w), FP(e,s), RM, Array(I,E), Fun(types)
(the last entry of `types` is the codomain, as in `Type::fun_types()`),
or an uninterpreted sort. -/
inductive Ty where
  | bool
  | bv (w : Nat)
  | fp (e s : Nat)
  | rm
  | arr (i e : Ty)
  | fn (types : List Ty)
  | unint (uid : Nat)

/-- Node kinds (the subset of `node::Kind` exercised by the claims). -/
inductive Kind where
  | APPLY | EQUAL | AND | IMPLIES | ITE | LAMBDA | FORALL | EXISTS
  | VARIABLE | CONSTANT | VALUE | NOT
deriving DecidableEq, Repr

/-- A term DAG node: kind, an auxiliary number (variable/constant id or
value payload), its sort, and the ordered children.  Two hash-consed nodes
of the source are `==` iff they are structurally equal, which is exactly
structural equality of this type. -/
inductive Node where
  | node (kind : Kind) (aux : Nat) (ty : Ty) (children : List Node)

mutual

def Ty.beq : Ty → Ty → Bool
  | .bool, .bool => true
  | .bv w, .bv w' => w == w'
  | .fp e s, .fp e' s' => e == e' && s == s'
  | .rm, .rm => true
  | .arr i e, .arr i' e' => Ty.beq i i' && Ty.beq e e'
  | .fn ts, .fn ts' => Ty.beqs ts ts'
  | .unint u, .unint u' => u == u'
  | _, _ => false

def Ty.beqs : List Ty → List Ty → Bool
  | [], [] => true
  | a :: as, b :: bs => Ty.beq a b && Ty.beqs as bs
  | _, _ => false

end

mutual

theorem Ty.ty_beq_iff : ∀ a b : Ty, Ty.beq a b = true ↔ a = b
  | .bool, b => by cases b <;> simp [Ty.beq]
  | .bv w, b => by cases b <;> simp [Ty.beq]
  | .fp e s, b => by cases b <;> simp [Ty.beq]
  | .rm, b => by cases b <;> simp [Ty.beq]
  | .arr i e, b => by
      cases b <;> simp [Ty.beq, Ty.ty_beq_iff i, Ty.ty_beq_iff e]
  | .fn ts, b => by
      cases b <;> simp [Ty.beq, Ty.ty_beqs_iff ts]
  | .unint u, b => by cases b <;> simp [Ty.beq]

theorem Ty.ty_beqs_iff : ∀ as bs : List Ty, Ty.beqs as bs = true ↔ as = bs
  | [], bs => by cases bs <;> simp [Ty.beqs]
  | a :: as, bs => by
      cases bs with
      | nil => simp [Ty.beqs]
      | cons b bs => simp [Ty.beqs, Ty.ty_beq_iff a, Ty.ty_beqs_iff as]

end

instance : DecidableEq Ty := fun a b => decidable_of_iff _ (Ty.ty_beq_iff a b)

mutual

def Node.beq : Node → Node → Bool
  | .node k a t c, .node k' a' t' c' =>
    k == k' && a == a' && t == t' && Node.beqs c c'

def Node.beqs : List Node → List Node → Bool
  | [], [] => true
  | a :: as, b :: bs => Node.beq a b && Node.beqs as bs
  | _, _ => false

end

mutual

theorem Node.node_beq_iff : ∀ a b : Node, Node.beq a b = true ↔ a = b
  | .node k a t c, .node k' a' t' c' => by
      simp [Node.beq, Node.node_beqs_iff c, and_assoc]

theorem Node.node_beqs_iff : ∀ as bs : List Node, Node.beqs as bs = true ↔ as = bs
  | [], bs => by cases bs <;> simp [Node.beqs]
  | a :: as, bs => by
      cases bs with
      | nil => simp [Node.beqs]
      | cons b bs => simp [Node.beqs, Node.node_beq_iff a, Node.node_beqs_iff as]

end

instance : DecidableEq Node := fun a b => decidable_of_iff _ (Node.node_beq_iff a b)

/-- `Node::kind()`. -/
def Node.kind : Node → Kind
  | .node k _ _ _ => k

/-- `Node::type()`. -/
def Node.ty : Node → Ty
  | .node _ _ t _ => t

/-- The children list of a node (`Node::begin()/end()`). -/
def Node.children : Node → List Node
  | .node _ _ _ c => c

/-- `node[0]`, the first child (e.g. the function of an `APPLY`). -/
def Node.child0 (n : Node) : Node := n.children.headD n

/-- `Type::is_bool()`. -/
def Ty.is_bool : Ty → Bool
  | .bool => true
  | _ => false

/-- `Type::is_fun()`. -/
def Ty.is_fun : Ty → Bool
  | .fn _ => true
  | _ => false

/-- `Type::fun_types()`: domain types followed by the codomain. -/
def Ty.fun_types : Ty → List Ty
  | .fn ts => ts
  | _ => []

/-! ## Node construction (`NodeManager::mk_node`, `src/node/node_manager.cpp`)

Type inference for the kinds used by the claims: equalities, Boolean
connectives and ITE as in the source's kind-signature table. -/

/-- `mk_node(Kind::EQUAL, {a, b})`: Boolean-sorted equality. -/
def mk_equal (a b : Node) : Node := .node .EQUAL 0 .bool [a, b]

/-- `mk_node(Kind::AND, {a, b})`. -/
def mk_and (a b : Node) : Node := .node .AND 0 .bool [a, b]

/-- `mk_node(Kind::IMPLIES, {a, b})`. -/
def mk_implies (a b : Node) : Node := .node .IMPLIES 0 .bool [a, b]

/-- `mk_node(Kind::ITE, {c, t, e})`: sort of the branches. -/
def mk_ite (c t e : Node) : Node := .node .ITE 0 t.ty [c, t, e]

/-- `NodeManager::mk_var(type)`: a fresh bound variable; freshness is
represented by an explicit numeric id. -/
def mk_var (t : Ty) (vid : Nat) : Node := .node .VARIABLE vid t []

/-- `NodeManager::mk_const(type)`: an uninterpreted constant. -/
def mk_const (t : Ty) (cid : Nat) : Node := .node .CONSTANT cid t []

/-- `mk_node(Kind::APPLY, {f, args...})`: a function application; its sort
is the codomain of the function sort. -/
def mk_apply (f : Node) (args : List Node) : Node :=
  .node .APPLY 0 (f.ty.fun_types.getLastD .bool) (f :: args)

/-- The Boolean value `true` (`NodeManager::mk_value(true)`; payload 1). -/
def true_node : Node := .node .VALUE 1 .bool []

/-- A concrete value node of sort `t` with payload `v` (BV/Bool values are
distinguished by their payload, as the attached value payload is in the
source). -/
def mk_value (t : Ty) (v : Nat) : Node := .node .VALUE v t []

/-- A single lambda binder node.  The sort of a lambda whose body is itself
a function collapses into one function sort, so that nested lambdas built
by `utils::mk_binder` have the function sort of the bound variables over
the body. -/
def mk_lambda (v body : Node) : Node :=
  .node .LAMBDA 0
    (match body.ty with
     | .fn ts => .fn (v.ty :: ts)
     | t => .fn [v.ty, t])
    [v, body]

/-- Modelled from the spec: `utils::mk_nary(kind, terms)`
(`src/node/node_utils.cpp` is not part of the snapshot).  Builds the
left-associated `kind`-conjunction `∧ᵢ termᵢ` of a non-empty list, the
single element itself for a singleton. -/
def mk_nary (k : Kind) : List Node → Node
  | [] => true_node
  | x :: xs => xs.foldl (fun acc y => .node k 0 .bool [acc, y]) x

/-- Modelled from the spec: `utils::mk_binder(Kind::LAMBDA, vars)`
(`src/node/node_utils.cpp` is not part of the snapshot).  The last list
element is the body; the variables before it are bound around it,
innermost last, as binders are in the source. -/
def mk_binder : List Node → Node
  | [] => true_node
  | [body] => body
  | v :: rest => mk_lambda v (mk_binder rest)

/-- Modelled from the spec: `utils::mk_default_value(type)`
(`src/node/node_utils.cpp` is not part of the snapshot).  The model
extractor's default entry: a concrete VALUE term of the given sort
(zero / false). -/
def mk_default_value (t : Ty) : Node := .node .VALUE 0 t []

/-- `Result` (`src/solver/result.h`). -/
inductive Result where
  | SAT | UNSAT | UNKNOWN
deriving DecidableEq, Repr

/-- A C `assert` that fails aborts the process (debug builds); computations
that can run into a failing assertion return `aborted` there. -/
inductive AbortOr (α : Type) where
  | aborted
  | ok (a : α)
deriving DecidableEq

/-! ## Options (`src/option/option.h`)

The option registry holds the current value of each knob; only the knobs
the claims exercise are carried.  `OptionBool::set` / `OptionNumeric::set`
overwrite the current value. -/

/-- The current values of the configuration options used by the embedded
code, with the member names of `option::Options`. -/
structure Options where
  incremental : Bool
  produce_models : Bool
  seed : Nat
  rewrite_level : Nat
  pp_flatten_and : Bool
  pp_variable_subst : Bool
  pp_skeleton_preproc : Bool
  pp_embedded_constr : Bool
  pp_contr_ands : Bool
  pp_normalize : Bool
deriving DecidableEq, Repr

/-- The Boolean options of the record, for keyed access via
`Options::set(Option opt, value)`. -/
inductive BoolOpt where
  | incremental | produce_models | pp_flatten_and | pp_variable_subst
  | pp_skeleton_preproc | pp_embedded_constr | pp_contr_ands | pp_normalize
deriving DecidableEq, Repr

/-- The numeric options of the record. -/
inductive NumOpt where
  | seed | rewrite_level
deriving DecidableEq, Repr

/-- `Options::set` on a Boolean option: overwrite its current value. -/
def Options.setB (o : Options) (k : BoolOpt) (v : Bool) : Options :=
  match k with
  | .incremental => { o with incremental := v }
  | .produce_models => { o with produce_models := v }
  | .pp_flatten_and => { o with pp_flatten_and := v }
  | .pp_variable_subst => { o with pp_variable_subst := v }
  | .pp_skeleton_preproc => { o with pp_skeleton_preproc := v }
  | .pp_embedded_constr => { o with pp_embedded_constr := v }
  | .pp_contr_ands => { o with pp_contr_ands := v }
  | .pp_normalize => { o with pp_normalize := v }

/-- Keyed read of a Boolean option's current value. -/
def Options.getB (o : Options) (k : BoolOpt) : Bool :=
  match k with
  | .incremental => o.incremental
  | .produce_models => o.produce_models
  | .pp_flatten_and => o.pp_flatten_and
  | .pp_variable_subst => o.pp_variable_subst
  | .pp_skeleton_preproc => o.pp_skeleton_preproc
  | .pp_embedded_constr => o.pp_embedded_constr
  | .pp_contr_ands => o.pp_contr_ands
  | .pp_normalize => o.pp_normalize

/-- `Options::set` on a numeric option. -/
def Options.setN (o : Options) (k : NumOpt) (v : Nat) : Options :=
  match k with
  | .seed => { o with seed := v }
  | .rewrite_level => { o with rewrite_level := v }

/-- Keyed read of a numeric option's current value. -/
def Options.getN (o : Options) (k : NumOpt) : Nat :=
  match k with
  | .seed => o.seed
  | .rewrite_level => o.rewrite_level

/-! ## `Env` (`src/env.h`)

`Env` is constructed from a caller's options object and stores it in the
member `const option::Options d_options` — **by value**, so construction
takes a snapshot of the caller's option values. -/

/-- The solving environment: the copied options and the configured
terminator (`Terminator* d_terminator = nullptr`), here a Boolean
predicate. -/
structure Env where
  d_options : Options
  d_terminator : Option (Unit → Bool)

/-- `Env::Env(const option::Options& options)`: copies the option record;
no terminator is configured initially. -/
def Env.make (options : Options) : Env :=
  { d_options := options, d_terminator := none }

/-- `Env::options()`. -/
def Env.options (e : Env) : Options := e.d_options

/-- `Env::configure_terminator(t)`: replaces any previous terminator. -/
def Env.configure_terminator (e : Env) (t : Option (Unit → Bool)) : Env :=
  { e with d_terminator := t }

/-- Modelled from the spec: `Env::terminate()` (the header `src/env.h` is
in the snapshot, its implementation file is not): true iff a termination
function has been configured and fires. -/
def Env.terminate (e : Env) : Bool :=
  match e.d_terminator with
  | some f => f ()
  | none => false

/-! ## Backtrack manager and solving context (`src/solving_context.h`) -/

/-- Modelled from the spec: `backtrack::BacktrackManager`
(`src/backtrack/backtrackable.h` is not in the snapshot).  A level-indexed
stack: `push` begins a new level, `pop` discards the topmost level and
popping past the root fails. -/
structure BacktrackManager where
  num_levels : Nat
deriving DecidableEq, Repr

/-- `BacktrackManager::push()`: modelled from the spec. -/
def BacktrackManager.push (m : BacktrackManager) : BacktrackManager :=
  ⟨m.num_levels + 1⟩

/-- `BacktrackManager::pop()`: modelled from the spec; popping past the
root fails. -/
def BacktrackManager.pop (m : BacktrackManager) : Option BacktrackManager :=
  if m.num_levels = 0 then none else some ⟨m.num_levels - 1⟩

/-- `SolvingContext` (`src/solving_context.h`): environment, backtrack
manager, assertion stack and the result of the last `solve()` call.  The
assertion stack records the assertions in order (the level structure is
tracked by the backtrack manager). -/
structure SolvingContext where
  d_env : Env
  d_backtrack_mgr : BacktrackManager
  d_assertions : List Node
  d_sat_state : Result

/-- `SolvingContext::SolvingContext(const option::Options& options)`:
`d_env(options)` copies the options; no levels, no assertions,
`d_sat_state = Result::UNKNOWN`. -/
def SolvingContext.make (options : Options) : SolvingContext :=
  { d_env := Env.make options
    d_backtrack_mgr := ⟨0⟩
    d_assertions := []
    d_sat_state := .UNKNOWN }

/-- `SolvingContext::push()`: `d_backtrack_mgr.push()`. -/
def SolvingContext.push (ctx : SolvingContext) : SolvingContext :=
  { ctx with d_backtrack_mgr := ctx.d_backtrack_mgr.push }

/-- `SolvingContext::pop()`: `d_backtrack_mgr.pop()`; fails past the root
(manager modelled from the spec). -/
def SolvingContext.pop (ctx : SolvingContext) : Option SolvingContext :=
  (ctx.d_backtrack_mgr.pop).map fun m => { ctx with d_backtrack_mgr := m }

/-- `SolvingContext::assert_formula(formula)`:
`assert(formula.type().is_bool());` then pushes the formula onto the
assertion stack. -/
def SolvingContext.assert_formula (ctx : SolvingContext) (formula : Node) :
    AbortOr SolvingContext :=
  if formula.ty.is_bool then
    .ok { ctx with d_assertions := ctx.d_assertions ++ [formula] }
  else .aborted

/-! ## The `bitwuzla::Bitwuzla` API (`src/api/cpp/bitwuzla.cpp`) -/

/-- A `bitwuzla::Bitwuzla` instance owns its solving context
(`d_ctx(new bzla::SolvingContext(*options.d_options))`). -/
structure Bitwuzla where
  d_ctx : SolvingContext

/-- The heap of live `bitwuzla::Options` objects: the C++ API object wraps
`std::shared_ptr<bzla::option::Options>`, i.e. a mutable cell; a store maps
each cell to its current value. -/
def OptionsStore : Type := Nat → Options

/-- `bitwuzla::Options::set` on a Boolean option of the cell `addr`:
mutates that cell in place. -/
def OptionsStore.setB (σ : OptionsStore) (addr : Nat) (k : BoolOpt) (v : Bool) :
    OptionsStore :=
  fun a => if a = addr then (σ a).setB k v else σ a

/-- `Bitwuzla::Bitwuzla(const Options &options)`: constructs the solving
context from the value the options cell holds right now
(`*options.d_options` is dereferenced and copied by the context's `Env`). -/
def Bitwuzla.make (σ : OptionsStore) (addr : Nat) : Bitwuzla :=
  ⟨SolvingContext.make (σ addr)⟩

/-- `Bitwuzla::terminate()`: the body is `// TODO` and `return false;`. -/
def Bitwuzla.terminate (_bw : Bitwuzla) : Bool := false

/-- `Bitwuzla::push(nlevels)`: `// TODO check` — performs
`d_ctx->push()` `nlevels` times with no check of the incremental option
and no failure path. -/
def Bitwuzla.push (bw : Bitwuzla) : Nat → Bitwuzla
  | 0 => bw
  | n + 1 => ⟨(Bitwuzla.push bw n).d_ctx.push⟩

/-- `Bitwuzla::pop(nlevels)`: `// TODO check` — performs `d_ctx->pop()`
`nlevels` times with no check of the incremental option; each underlying
pop fails when it would pop past the root. -/
def Bitwuzla.pop (bw : Bitwuzla) : Nat → Option Bitwuzla
  | 0 => some bw
  | n + 1 => (Bitwuzla.pop bw n).bind fun b => (b.d_ctx.pop).map Bitwuzla.mk

/-- The number of levels currently on the context's backtrack manager. -/
def Bitwuzla.num_levels (bw : Bitwuzla) : Nat :=
  bw.d_ctx.d_backtrack_mgr.num_levels

/-- `Bitwuzla::simplify()`: the body is `// TODO (not implemented yet)`
and `return Result::UNKNOWN;` — it does not touch the assertions. -/
def Bitwuzla.simplify (_bw : Bitwuzla) : Result := .UNKNOWN

/-! ## Kissat SAT backend (`src/sat/kissat.cpp`)

The wrapper around the external kissat C library.  The external solver
itself is out of scope; its observable state is modelled as the list of
added literals, an assignment, the result `kissat_solve` would report, and
the version string. -/

/-- The external kissat solver object behind `Kissat::d_solver`. -/
structure KissatLib where
  added : List Int
  assignment : Int → Int
  solve_result : Int
  version : String
  terminator_connected : Bool

namespace Kissat

/-- `Kissat::add(lit)`: forwards to `kissat_add`; never fails. -/
def add (s : KissatLib) (lit : Int) : AbortOr KissatLib :=
  .ok { s with added := s.added ++ [lit] }

/-- `Kissat::assume(lit)`: the body is `(void) lit; assert(false);` — it
aborts on every literal. -/
def assume (_s : KissatLib) (_lit : Int) : AbortOr KissatLib := .aborted

/-- `Kissat::value(lit)`: the sign of `kissat_value(d_solver, lit)`. -/
def value (s : KissatLib) (lit : Int) : AbortOr Int :=
  .ok (if s.assignment lit > 0 then 1 else if s.assignment lit < 0 then -1 else 0)

/-- `Kissat::failed(lit)`: the body is `(void) lit; assert(false);`. -/
def failed (_s : KissatLib) (_lit : Int) : AbortOr Bool := .aborted

/-- `Kissat::fixed(lit)`: the body is `(void) lit; assert(false);`. -/
def fixed (_s : KissatLib) (_lit : Int) : AbortOr Int := .aborted

/-- `Kissat::solve()`: `kissat_solve` result 10 is SAT, 20 is UNSAT,
anything else UNKNOWN. -/
def solve (s : KissatLib) : AbortOr Result :=
  .ok (if s.solve_result = 10 then .SAT
       else if s.solve_result = 20 then .UNSAT
       else .UNKNOWN)

/-- `Kissat::set_terminate(fun, state)`: forwards to
`kissat_set_terminate`; never fails. -/
def set_terminate (s : KissatLib) : AbortOr KissatLib :=
  .ok { s with terminator_connected := true }

/-- `Kissat::get_version()`: `kissat_version()`. -/
def get_version (s : KissatLib) : AbortOr String := .ok s.version

end Kissat

/-! ## CLI front-end (`src/main/main.cpp`) -/

/-- What `bitwuzla::parse(options, filename)` (the external SMT-LIB parser
collaborator) reports back to `main`: an error message, empty on success,
and — for stating claims about satisfiability — the result the run
established.  `main` only ever reads the error message. -/
structure ParseRun where
  err_msg : String
  status : Result
deriving DecidableEq, Repr

/-- One invocation of `main`: the command-line arguments that are not the
input file name, whether `options.set(args)` throws
`bitwuzla::Exception`, and the parser run. -/
structure MainRun where
  args : List String
  options_set_throws : Bool
  parse : ParseRun
deriving DecidableEq, Repr

/-- `EXIT_SUCCESS`, passed to `bzla_exit`. -/
def EXIT_SUCCESS : Nat := 0

/-- `EXIT_FAILURE`, passed to `bzla_exit`. -/
def EXIT_FAILURE : Nat := 1

/-- Whether an argument makes `main` print a message and exit
successfully (`-h` or `--help`, `-c` or `--copyright`, `-V` or
`--version`). -/
def infoArg (a : String) : Bool :=
  a = "-h" || a = "--help" || a = "-c" || a = "--copyright"
    || a = "-V" || a = "--version"

/-- The exit status of `main` (`src/main/main.cpp`): an info argument
exits with `EXIT_SUCCESS`; a failing `options.set(args)` exits with
`EXIT_FAILURE`; otherwise the run exits with `EXIT_SUCCESS` when the
parser reports no error and `EXIT_FAILURE` when it reports one.  The
satisfiability status of the input never reaches the exit code. -/
def mainExitCode (r : MainRun) : Nat :=
  if r.args.any infoArg then EXIT_SUCCESS
  else if r.options_set_throws then EXIT_FAILURE
  else if r.parse.err_msg = "" then EXIT_SUCCESS
  else EXIT_FAILURE

/-! ## Function congruence engine (`src/solver/fun/fun_solver.cpp`)

After each SAT model `FunSolver::check()` walks the registered `APPLY`
terms; the model valuation computed by `SolverState::value` is the
abstract function `val`. -/

namespace FunSolver

/-- `FunSolver::Apply`: an application, the model values of its arguments
(`state.value(apply[i])`, `i ≥ 1`) and its own cached model value
(`state.value(apply)`). -/
structure Apply where
  d_apply : Node
  d_values : List Node
  d_value : Node
deriving DecidableEq

/-- `Apply::Apply(apply, state)`. -/
def Apply.make (val : Node → Node) (apply : Node) : Apply :=
  { d_apply := apply
    d_values := (apply.children.drop 1).map val
    d_value := val apply }

/-- `FunSolver::add_function_congruence_lemma(a, b)`: the premise is the
conjunction of `EQUAL(a[i], b[i])` over the argument positions, the
conclusion `EQUAL(a, b)`, and the lemma `IMPLIES(premise, conclusion)`. -/
def add_function_congruence_lemma (a b : Node) : Node :=
  let premise := List.zipWith mk_equal (a.children.drop 1) (b.children.drop 1)
  mk_implies (mk_nary .AND premise) (mk_equal a b)

/-- The engine's state after a congruence check: the per-function models
(`d_fun_models`; `operator[]` materializes an entry for every function that
has a registered application) and the lemmas sent to
`SolverState::lemma`. -/
structure CheckState where
  d_fun_models : Node → Option (List Apply)
  lemmas : List Node

/-- The loop body of `FunSolver::check()` for one registered application:
build the `Apply` record, try to insert it into the function's model (the
set is keyed on the argument value tuple, `Apply::operator==`), and on an
insertion conflict with a differing model value emit the congruence lemma
against the application already in the model. -/
def checkStep (val : Node → Node) (st : CheckState) (apply : Node) :
    CheckState :=
  let f := apply.child0
  let app := Apply.make val apply
  let fun_model := (st.d_fun_models f).getD []
  match fun_model.find? (fun p => p.d_values == app.d_values) with
  | none =>
      { st with d_fun_models :=
          fun g => if g = f then some (fun_model ++ [app]) else st.d_fun_models g }
  | some p =>
      if p.d_value ≠ app.d_value then
        { d_fun_models :=
            fun g => if g = f then some fun_model else st.d_fun_models g
          lemmas := st.lemmas ++ [add_function_congruence_lemma apply p.d_apply] }
      else
        { st with d_fun_models :=
            fun g => if g = f then some fun_model else st.d_fun_models g }

/-- `FunSolver::check()`: clears `d_fun_models`, then processes every
registered application in registration order. -/
def check (val : Node → Node) (d_applies : List Node) : CheckState :=
  d_applies.foldl (checkStep val) { d_fun_models := fun _ => none, lemmas := [] }

/-- The argument model-value tuple of an application. -/
def argValues (val : Node → Node) (apply : Node) : List Node :=
  (apply.children.drop 1).map val

/-- The first application in `earlier` of the same function as `a` whose
argument model-value tuple equals `a`'s. -/
def firstSameTuple (val : Node → Node) (earlier : List Node) (a : Node) :
    Option Node :=
  earlier.find? fun b =>
    b.child0 == a.child0 && argValues val b == argValues val a

/-- The amended claim's description of the emitted lemmas, stated without
the engine's model cache: scanning the registered applications in order, an
application `a` yields the congruence lemma against `b` exactly when `b` is
the first earlier application of the same function with the same argument
model-value tuple and `b`'s model value differs from `a`'s. -/
def specLemmasGo (val : Node → Node) (earlier : List Node) :
    List Node → List Node
  | [] => []
  | a :: rest =>
    (match firstSameTuple val earlier a with
     | some b =>
        if val b ≠ val a then [add_function_congruence_lemma a b] else []
     | none => []) ++ specLemmasGo val (earlier ++ [a]) rest

/-- The lemmas the amended claim predicts for a registration list. -/
def specLemmas (val : Node → Node) (applies : List Node) : List Node :=
  specLemmasGo val [] applies

/-- `FunSolver::value(term)`: `assert(term.type().is_fun())`; with a model
entry for `term`, fresh variables are created for the domain sorts, the
recorded argument tuples become a nested ITE ending in a default value of
the codomain, and the result is the LAMBDA binder over variables and body;
without an entry, a default value of the function sort.  (`mk_var`
freshness is an explicit id base; the iteration order of the model set is
its insertion order here.) -/
def value (st : CheckState) (fresh : Nat) (term : Node) : AbortOr Node :=
  if ¬ term.ty.is_fun then .aborted
  else
    match st.d_fun_models term with
    | some fun_model =>
        let types := term.ty.fun_types
        let vars := types.dropLast.enum.map fun p => mk_var p.2 (fresh + p.1)
        let res0 := mk_default_value (types.getLastD .bool)
        let res := fun_model.foldl
          (fun res apl =>
            let eqs := List.zipWith mk_equal vars apl.d_values
            let cond := mk_nary .AND eqs
            mk_ite cond apl.d_value res)
          res0
        .ok (mk_binder (vars ++ [res]))
    | none => .ok (mk_default_value term.ty)

end FunSolver

/-- `ComputeValueException` carries the unregistered node it was thrown
for; the solver engine's value computation either returns a value or
throws. -/
def EngineValue : Type := Node → Except Node Node

/-- `SolvingContext::get_value(term)` (`src/solving_context.h`):
`assert(d_sat_state == Result::SAT)`; computes the value of the
preprocessed term (`d_solver_engine.value(d_preprocessor.process(term))`)
and, when that computation throws `ComputeValueException` — an
unregistered quantifier was encountered — returns the original `term`
unchanged.  The engine's value function and the preprocessor's `process`
are separate components, passed in. -/
def SolvingContext.get_value (ctx : SolvingContext) (engine_value : EngineValue)
    (process : Node → Node) (term : Node) : AbortOr Node :=
  if ctx.d_sat_state ≠ .SAT then .aborted
  else
    match engine_value (process term) with
    | .ok v => .ok v
    | .error _ => .ok term

/-- Modelled from the spec: the `SolverEngine::value` dispatch for
function-sorted terms (`src/solver/solver_engine.cpp` is not in the
snapshot) — the UF/array solver provides the model of a function symbol,
so the engine's value of a function-sorted term is `FunSolver::value`. -/
def engineValueFun (st : FunSolver.CheckState) (fresh : Nat) : EngineValue :=
  fun n =>
    match FunSolver.value st fresh n with
    | .ok v => .ok v
    | .aborted => .error n

/-! ## Preprocessor (`src/preprocess/preprocessor.cpp`)

`Preprocessor::apply` runs the preprocessing passes over the current
level's assertions to a fixed point; `Preprocessor::preprocess` does that
level by level and returns `Result::UNKNOWN`.  The pass implementations
are separate components (`PreprocessingPass` subclasses) and are abstract
transformations of the assertion list here; per the spec, a pass marks the
assertion vector modified iff it changed an assertion. -/

/-- The preprocessing passes, in the order `Preprocessor::apply` runs
them. -/
inductive PassId where
  | rewrite | flatten_and | variable_substitution | skeleton_preproc
  | embedded_constraints | contr_ands | elim_lambda | elim_uninterpreted
  | normalize
deriving DecidableEq, Repr

/-- The pass implementations as assertion-list transformations. -/
structure Passes where
  rewrite : List Node → List Node
  flatten_and : List Node → List Node
  variable_substitution : List Node → List Node
  skeleton_preproc : List Node → List Node
  embedded_constraints : List Node → List Node
  contr_ands : List Node → List Node
  elim_lambda : List Node → List Node
  elim_uninterpreted : List Node → List Node
  normalize : List Node → List Node

/-- The identity passes: every pass leaves the assertions unchanged. -/
def Passes.id : Passes :=
  { rewrite := fun a => a
    flatten_and := fun a => a
    variable_substitution := fun a => a
    skeleton_preproc := fun a => a
    embedded_constraints := fun a => a
    contr_ands := fun a => a
    elim_lambda := fun a => a
    elim_uninterpreted := fun a => a
    normalize := fun a => a }

/-- The assertion vector's state inside one iteration of the fixed-point
loop: the assertions, the modified flag (reset at the iteration's start),
whether `skel_done` has been set, and the ids of the passes applied. -/
structure IterState where
  assertions : List Node
  modified : Bool
  skel_done : Bool
  pass_log : List PassId

/-- Run one pass if its option gates it on: `pass.apply(assertions)`; the
vector's modified flag is raised iff the pass changed an assertion
(spec-modelled `AssertionVector`, `src/backtrack/assertion_stack.h` is not
in the snapshot). -/
def passStep (p : List Node → List Node) (enabled : Bool) (pid : PassId)
    (s : IterState) : IterState :=
  if enabled then
    let a2 := p s.assertions
    { s with assertions := a2
             modified := s.modified || decide (a2 ≠ s.assertions)
             pass_log := s.pass_log ++ [pid] }
  else s

/-- One iteration of the fixed-point loop in `Preprocessor::apply`:
`assertions.reset_modified()`, then the passes in source order — rewrite;
flatten_and, variable_substitution (option-gated); skeleton_preproc when
its option is on and it has not run yet in this `apply` call, setting
`skel_done`; embedded_constraints, contr_ands (option-gated); elim_lambda;
elim_uninterpreted; normalize (option-gated). -/
def applyIteration (ps : Passes) (opts : Options) (skel_done : Bool)
    (a0 : List Node) : IterState :=
  let s0 : IterState :=
    { assertions := a0, modified := false, skel_done := skel_done
      pass_log := [] }
  let s1 := passStep ps.rewrite true .rewrite s0
  let s2 := passStep ps.flatten_and opts.pp_flatten_and .flatten_and s1
  let s3 := passStep ps.variable_substitution opts.pp_variable_subst
    .variable_substitution s2
  let s4 :=
    if opts.pp_skeleton_preproc && !skel_done then
      { passStep ps.skeleton_preproc true .skeleton_preproc s3 with
          skel_done := true }
    else s3
  let s5 := passStep ps.embedded_constraints opts.pp_embedded_constr
    .embedded_constraints s4
  let s6 := passStep ps.contr_ands opts.pp_contr_ands .contr_ands s5
  let s7 := passStep ps.elim_lambda true .elim_lambda s6
  let s8 := passStep ps.elim_uninterpreted true .elim_uninterpreted s7
  passStep ps.normalize opts.pp_normalize .normalize s8

/-- The outcome of `Preprocessor::apply` on one level: final assertions,
the number of loop iterations (`d_stats.num_iterations`), each iteration's
pass ids and modified flag, and whether the fixed point was reached within
the fuel. -/
structure ApplyRun where
  assertions : List Node
  iterations : Nat
  pass_log : List (List PassId)
  modified_log : List Bool
  finished : Bool

/-- The `do { … } while (assertions.modified())` loop of
`Preprocessor::apply`, with fuel bounding the number of iterations (the
C++ loop has no bound; `finished = false` records that the fuel ran out
mid-loop).  The environment's options gate the passes; nothing in the loop
consults the environment's terminator, as nothing in the source loop
does. -/
def applyLoop (env : Env) (ps : Passes) :
    Nat → Bool → List Node → ApplyRun
  | 0, _, a0 =>
      { assertions := a0, iterations := 0, pass_log := [], modified_log := []
        finished := false }
  | fuel + 1, skel_done, a0 =>
      let it := applyIteration ps env.options skel_done a0
      if it.modified then
        let rest := applyLoop env ps fuel it.skel_done it.assertions
        { assertions := rest.assertions
          iterations := rest.iterations + 1
          pass_log := it.pass_log :: rest.pass_log
          modified_log := it.modified :: rest.modified_log
          finished := rest.finished }
      else
        { assertions := it.assertions, iterations := 1
          pass_log := [it.pass_log], modified_log := [it.modified]
          finished := true }

namespace Preprocessor

/-- `Preprocessor::apply(assertions)`: returns immediately when the level
has no assertions, otherwise runs the fixed-point loop with
`skel_done = false`. -/
def apply (env : Env) (ps : Passes) (fuel : Nat) (a0 : List Node) : ApplyRun :=
  if a0.length = 0 then
    { assertions := a0, iterations := 0, pass_log := [], modified_log := []
      finished := true }
  else applyLoop env ps fuel false a0

/-- The outcome of `Preprocessor::preprocess()`: one `apply` run per
assertion level and the returned result. -/
structure PreprocessRun where
  runs : List ApplyRun
  result : Result

/-- `Preprocessor::preprocess()`: returns `Result::UNKNOWN` when there are
no assertions; otherwise processes the pending assertions level by level —
one `Preprocessor::apply` call per level, each with a fresh
`skel_done = false` — and returns `Result::UNKNOWN`. -/
def preprocess (env : Env) (ps : Passes) (fuel : Nat)
    (levels : List (List Node)) : PreprocessRun :=
  { runs := levels.map (apply env ps fuel), result := .UNKNOWN }

/-- How often a whole `preprocess()` call applied `skeleton_preproc`. -/
def PreprocessRun.skelCount (r : PreprocessRun) : Nat :=
  (r.runs.map (fun a => (a.pass_log.flatten).count .skeleton_preproc)).sum

end Preprocessor

/-- How often an `apply` run applied `skeleton_preproc`. -/
def ApplyRun.skelCount (r : ApplyRun) : Nat :=
  (r.pass_log.flatten).count .skeleton_preproc

/-- `SolvingContext::preprocess()`: forwards to
`Preprocessor::preprocess` and returns its result. -/
def SolvingContext.preprocess (env : Env) (ps : Passes) (fuel : Nat)
    (levels : List (List Node)) : Result :=
  (Preprocessor.preprocess env ps fuel levels).result

/-! ## Free-variable check (`SolvingContext::check_no_free_variables`,
`src/solving_context.cpp`)

The debug check walks each assertion with a per-assertion `free_vars` map
but a node cache shared across the assertions of one call.  A node already
fully processed while checking an earlier assertion is skipped, so it
contributes nothing to the current assertion's `free_vars`
(`free_vars.find(c)` misses). -/

/-- FORALL, EXISTS and LAMBDA bind their first child. -/
def Kind.isBinder : Kind → Bool
  | .FORALL | .EXISTS | .LAMBDA => true
  | _ => false

mutual

/-- The variable set the traversal computes for a node that is not in the
shared cache: a VARIABLE yields itself; any other node takes the union of
the sets of its children, a cached child contributing nothing; a binder
erases its bound variable `cur[0]` from the union. -/
def fvCore (cache : List Node) : Node → List Node
  | .node k a t cs =>
    if k = .VARIABLE then [.node k a t cs]
    else
      let vars := fvChildren cache cs
      if k.isBinder then
        match cs with
        | v :: _ => vars.filter fun w => decide (w ≠ v)
        | [] => vars
      else vars

/-- Union of the children's variable sets; a child in the shared cache has
no `free_vars` entry and contributes nothing. -/
def fvChildren (cache : List Node) : List Node → List Node
  | [] => []
  | c :: rest =>
    (if c ∈ cache then [] else fvCore cache c).union (fvChildren cache rest)

end

mutual

/-- All subterms of a node (the nodes the traversal marks processed). -/
def subterms : Node → List Node
  | .node k a t cs => .node k a t cs :: subtermsList cs

def subtermsList : List Node → List Node
  | [] => []
  | c :: rest => subterms c ++ subtermsList rest

end

/-- The free variables of a single term: the traversal with nothing
cached. -/
def freeVars (n : Node) : List Node := fvCore [] n

/-- The per-assertion loop of `check_no_free_variables`: process the
assertions in order; an assertion already in the cache is skipped entirely
(its `free_vars` entry is never created, so the final lookup misses);
otherwise its variable set is computed, and if non-empty the check prints
the assertion with its free variables and aborts.  After an assertion is
processed, all its subterms are cached. -/
def checkNoFreeVariablesGo (cache : List Node) :
    List Node → Option (Node × List Node)
  | [] => none
  | a :: rest =>
    let fv := if a ∈ cache then [] else fvCore cache a
    if fv.isEmpty then checkNoFreeVariablesGo (cache ++ subterms a) rest
    else some (a, fv)

/-- `SolvingContext::check_no_free_variables()`: `some (assertion, vars)`
when the check aborts on `assertion` with the variables it prints, `none`
when it passes. -/
def SolvingContext.check_no_free_variables (assertions : List Node) :
    Option (Node × List Node) :=
  checkNoFreeVariablesGo [] assertions

/-- `mk_node(Kind::FORALL, {var, body})`. -/
def mk_forall (v body : Node) : Node := .node .FORALL 0 .bool [v, body]

/-! # Theorems

One theorem per claim (with counterexamples and witnesses where the claim's
status needs them), preceded by the helper lemmas their proofs share. -/

/-- A concrete option record with incremental mode disabled and every
preprocessing pass enabled, used by concrete instances below. -/
def opts0 : Options :=
  { incremental := false, produce_models := false, seed := 0
    rewrite_level := 1, pp_flatten_and := true, pp_variable_subst := true
    pp_skeleton_preproc := true, pp_embedded_constr := true
    pp_contr_ands := true, pp_normalize := true }

/-! ## C10 — Kissat backend -/

/-- **C10**: The Kissat wrapper's `assume`, `failed` and `fixed` abort via
a failed assertion (`assert(false)`) on every literal, while `add`,
`value`, `solve`, `set_terminate` and `get_version` — the only other
operations the wrapper implements — never abort; so assumption-based SAT
solving is unavailable when the kissat backend is selected. -/
theorem kissat_assume_failed_fixed_abort :
    (∀ (s : KissatLib) (lit : Int), Kissat.assume s lit = .aborted)
  ∧ (∀ (s : KissatLib) (lit : Int), Kissat.failed s lit = .aborted)
  ∧ (∀ (s : KissatLib) (lit : Int), Kissat.fixed s lit = .aborted)
  ∧ (∀ (s : KissatLib) (lit : Int), Kissat.add s lit ≠ .aborted)
  ∧ (∀ (s : KissatLib) (lit : Int), Kissat.value s lit ≠ .aborted)
  ∧ (∀ s : KissatLib, Kissat.solve s ≠ .aborted)
  ∧ (∀ s : KissatLib, Kissat.set_terminate s ≠ .aborted)
  ∧ (∀ s : KissatLib, Kissat.get_version s ≠ .aborted) := by
  refine ⟨fun _ _ => rfl, fun _ _ => rfl, fun _ _ => rfl, ?_, ?_, ?_, ?_, ?_⟩
    <;> intros
    <;> simp [Kissat.add, Kissat.value, Kissat.solve, Kissat.set_terminate,
          Kissat.get_version]

/-! ## C8 — CLI exit codes -/

/-- **C8** counterexample: a successful run whose input formula is SAT
exits with status 0, not 10 — `main` exits `EXIT_SUCCESS` whenever the
parser reports no error, whatever the satisfiability result was. -/
theorem main_exit_sat_is_zero :
    mainExitCode
        { args := [], options_set_throws := false
          parse := { err_msg := "", status := .SAT } } = 0
  ∧ mainExitCode
        { args := [], options_set_throws := false
          parse := { err_msg := "", status := .UNSAT } } = 0
  ∧ (0 : Nat) ≠ 10 := by decide

/-- **C8** amended: the CLI exit code is `EXIT_SUCCESS` (0) for every
successful run — an info flag, or a run whose option parsing and input
parsing report no error — and `EXIT_FAILURE` (1) for every error; it does
not depend on the satisfiability status of the input. -/
theorem main_exit_code_characterization (r : MainRun) (st : Result) :
    (mainExitCode r = EXIT_SUCCESS ∨ mainExitCode r = EXIT_FAILURE)
  ∧ (mainExitCode r = EXIT_SUCCESS ↔
      (r.args.any infoArg = true
        ∨ (r.options_set_throws = false ∧ r.parse.err_msg = "")))
  ∧ mainExitCode { r with parse := { r.parse with status := st } }
      = mainExitCode r := by
  unfold mainExitCode EXIT_SUCCESS EXIT_FAILURE
  refine ⟨?_, ?_, ?_⟩ <;> split_ifs <;> simp_all

/-! ## C7 — options are snapshotted at construction -/

/-- **C7**: `Bitwuzla::Bitwuzla(options)` copies the option values into
the context's `Env` (`const option::Options d_options`), so a later
`Options::set` on the caller's options object changes that object but not
the values the constructed instance observes. -/
theorem options_mutation_after_construction (σ : OptionsStore) (addr : Nat)
    (k : BoolOpt) (v : Bool) (kn : NumOpt) (vn : Nat) :
    ((Bitwuzla.make σ addr).d_ctx.d_env.options = σ addr)
  ∧ (((OptionsStore.setB σ addr k v) addr).getB k = v)
  ∧ ((Bitwuzla.make σ addr).d_ctx.d_env.options.getB k = (σ addr).getB k)
  ∧ ((σ addr).getB k ≠ v →
      (Bitwuzla.make σ addr).d_ctx.d_env.options.getB k
        ≠ ((OptionsStore.setB σ addr k v) addr).getB k)
  ∧ (((σ addr).setN kn vn).getN kn = vn) := by
  have hset : ∀ (o : Options) (k : BoolOpt) (v : Bool), (o.setB k v).getB k = v := by
    intro o k v; cases k <;> rfl
  have hsetn : ∀ (o : Options) (kn : NumOpt) (vn : Nat), (o.setN kn vn).getN kn = vn := by
    intro o kn vn; cases kn <;> rfl
  refine ⟨rfl, ?_, rfl, ?_, hsetn _ _ _⟩
  · simp [OptionsStore.setB, hset]
  · intro h
    simpa [Bitwuzla.make, SolvingContext.make, Env.make, Env.options,
      OptionsStore.setB, hset] using h

/-- **C7** witness: a concrete mutation — constructing with incremental
disabled, then setting incremental to true on the options object — leaves
the constructed instance observing the original value. -/
theorem options_mutation_witness :
    ((fun _ => opts0 : OptionsStore) 0).getB .incremental ≠ true
  ∧ (Bitwuzla.make (fun _ => opts0) 0).d_ctx.d_env.options.getB .incremental
      ≠ ((OptionsStore.setB (fun _ => opts0) 0 .incremental true) 0).getB
          .incremental :=
  ⟨by decide,
   (options_mutation_after_construction (fun _ => opts0) 0 .incremental true
      .seed 7).2.2.2.1 (by decide)⟩

/-! ## C5 — simplify -/

/-- **C5** counterexample: on a single assertion that already is the value
`true`, `simplify` returns UNKNOWN and not SAT: `Bitwuzla::simplify` is an
unimplemented stub, and `Preprocessor::preprocess` returns
`Result::UNKNOWN` on every path, with no check whether the assertions
reduced to true or false. -/
theorem simplify_on_true_returns_unknown :
    Bitwuzla.simplify ⟨SolvingContext.make opts0⟩ = .UNKNOWN
  ∧ SolvingContext.preprocess (Env.make opts0) Passes.id 4 [[true_node]]
      = .UNKNOWN
  ∧ Result.UNKNOWN ≠ Result.SAT :=
  ⟨rfl, rfl, by decide⟩

/-- **C5** amended: `simplify()` returns UNKNOWN unconditionally: the API
stub returns UNKNOWN without touching the assertions, and the solving
context's preprocessing entry point returns UNKNOWN for every environment,
pass set, fuel and assertion-level structure. -/
theorem simplify_always_unknown (bw : Bitwuzla) (env : Env) (ps : Passes)
    (fuel : Nat) (levels : List (List Node)) :
    Bitwuzla.simplify bw = .UNKNOWN
  ∧ SolvingContext.preprocess env ps fuel levels = .UNKNOWN :=
  ⟨rfl, rfl⟩

/-! ## C3 — push/pop and the incremental option -/

/-- **C3** counterexample: with the incremental option disabled, `push(1)`
raises no usage error and does not leave the context unchanged: the level
count grows from 0 to 1 (`Bitwuzla::push` is marked `// TODO check` and
performs the pushes unconditionally). -/
theorem push_without_incremental_succeeds :
    opts0.incremental = false
  ∧ (Bitwuzla.make (fun _ => opts0) 0).num_levels = 0
  ∧ ((Bitwuzla.make (fun _ => opts0) 0).push 1).num_levels = 1 :=
  ⟨by decide, rfl, rfl⟩

/-- `Bitwuzla::push` adds exactly `nlevels` levels. -/
theorem Bitwuzla.push_num_levels (bw : Bitwuzla) (n : Nat) :
    (bw.push n).num_levels = bw.num_levels + n := by
  induction n with
  | zero => rfl
  | succ n ih =>
      simp only [Bitwuzla.push, SolvingContext.push, BacktrackManager.push,
        Bitwuzla.num_levels] at ih ⊢
      omega

/-- `Bitwuzla::pop` in closed form: `nlevels` pops succeed iff at most
`num_levels` levels are popped, and then remove exactly `nlevels`
levels. -/
theorem Bitwuzla.pop_eq (bw : Bitwuzla) (n : Nat) :
    bw.pop n =
      if n ≤ bw.num_levels
      then some ⟨{ bw.d_ctx with
        d_backtrack_mgr := ⟨bw.num_levels - n⟩ }⟩
      else none := by
  induction n with
  | zero =>
      simp only [Bitwuzla.pop, Nat.zero_le, if_pos, Nat.sub_zero,
        Bitwuzla.num_levels]
  | succ n ih =>
      simp only [Bitwuzla.pop, ih, Bitwuzla.num_levels] at *
      by_cases h1 : n + 1 ≤ bw.d_ctx.d_backtrack_mgr.num_levels
      · rw [if_pos (by omega : n ≤ bw.d_ctx.d_backtrack_mgr.num_levels),
          if_pos h1]
        simp only [Option.some_bind, SolvingContext.pop, BacktrackManager.pop]
        rw [if_neg (by omega)]
        simp only [Option.map_some']
        have h3 : bw.d_ctx.d_backtrack_mgr.num_levels - n - 1
            = bw.d_ctx.d_backtrack_mgr.num_levels - (n + 1) := by omega
        rw [h3]
      · by_cases h2 : n ≤ bw.d_ctx.d_backtrack_mgr.num_levels
        · rw [if_pos h2, if_neg h1]
          simp only [Option.some_bind, SolvingContext.pop, BacktrackManager.pop]
          rw [if_pos (by omega)]
          rfl
        · rw [if_neg h2, if_neg h1]
          rfl

/-- **C3** amended: `push(n)` and `pop(n)` do not consult the incremental
option (the usage checks are unimplemented `// TODO check`): `push(n)`
always succeeds and adds `n` levels whatever the options say, `pop(n)`
succeeds and removes `n` levels whenever at most `num_levels` levels are
popped, and popping past the root fails (the backtrack manager is modelled
from the spec). -/
theorem push_pop_unchecked (bw : Bitwuzla) (n : Nat) :
    ((bw.push n).num_levels = bw.num_levels + n)
  ∧ (n ≤ bw.num_levels →
      ∃ bw', bw.pop n = some bw' ∧ bw'.num_levels = bw.num_levels - n)
  ∧ (bw.num_levels < n → bw.pop n = none) := by
  refine ⟨Bitwuzla.push_num_levels bw n, ?_, ?_⟩
  · intro h
    refine ⟨⟨{ bw.d_ctx with d_backtrack_mgr := ⟨bw.num_levels - n⟩ }⟩, ?_, rfl⟩
    rw [Bitwuzla.pop_eq, if_pos h]
  · intro h
    rw [Bitwuzla.pop_eq, if_neg (by omega)]

/-- **C3** witness: from two pushed levels, one pop succeeds and leaves
one level. -/
theorem push_pop_unchecked_witness :
    ∃ bw', ((Bitwuzla.make (fun _ => opts0) 0).push 2).pop 1 = some bw'
      ∧ bw'.num_levels = ((Bitwuzla.make (fun _ => opts0) 0).push 2).num_levels - 1 :=
  (push_pop_unchecked ((Bitwuzla.make (fun _ => opts0) 0).push 2) 1).2.1
    (by decide)

/-! ## Helper lemmas for the preprocessing loop (C2, C6) -/

/-- The pass ids one loop iteration logs, as a function of the options and
of whether `skel_done` was already set. -/
def iterLog (opts : Options) (skel_done : Bool) : List PassId :=
  [.rewrite]
  ++ (if opts.pp_flatten_and then [.flatten_and] else [])
  ++ (if opts.pp_variable_subst then [.variable_substitution] else [])
  ++ (if opts.pp_skeleton_preproc && !skel_done then [.skeleton_preproc]
      else [])
  ++ (if opts.pp_embedded_constr then [.embedded_constraints] else [])
  ++ (if opts.pp_contr_ands then [.contr_ands] else [])
  ++ [.elim_lambda, .elim_uninterpreted]
  ++ (if opts.pp_normalize then [.normalize] else [])

/-- How often one iteration applies each pass: the ungated passes once,
the gated ones once iff enabled, skeleton once iff enabled and not yet
done. -/
def expectedPassCount (opts : Options) (skel_done : Bool) : PassId → Nat
  | .rewrite => 1
  | .flatten_and => if opts.pp_flatten_and then 1 else 0
  | .variable_substitution => if opts.pp_variable_subst then 1 else 0
  | .skeleton_preproc =>
      if opts.pp_skeleton_preproc && !skel_done then 1 else 0
  | .embedded_constraints => if opts.pp_embedded_constr then 1 else 0
  | .contr_ands => if opts.pp_contr_ands then 1 else 0
  | .elim_lambda => 1
  | .elim_uninterpreted => 1
  | .normalize => if opts.pp_normalize then 1 else 0

theorem passStep_pass_log (p : List Node → List Node) (e : Bool) (pid : PassId)
    (s : IterState) :
    (passStep p e pid s).pass_log = s.pass_log ++ (if e then [pid] else []) := by
  unfold passStep; split <;> simp

theorem passStep_skel_done (p : List Node → List Node) (e : Bool) (pid : PassId)
    (s : IterState) : (passStep p e pid s).skel_done = s.skel_done := by
  unfold passStep; split <;> rfl

set_option maxHeartbeats 1000000 in
theorem applyIteration_pass_log (ps : Passes) (opts : Options) (sd : Bool)
    (a0 : List Node) :
    (applyIteration ps opts sd a0).pass_log = iterLog opts sd := by
  by_cases hsk : (opts.pp_skeleton_preproc && !sd) = true
  · simp only [applyIteration, hsk, eq_self_iff_true, if_true, ite_true,
      if_false, ite_false, Bool.false_eq_true, Bool.true_eq_false,
      passStep_pass_log, iterLog, List.nil_append, List.append_assoc,
      List.singleton_append, List.cons_append]
  · simp only [applyIteration, hsk, eq_self_iff_true, if_true, ite_true,
      if_false, ite_false, Bool.false_eq_true, Bool.true_eq_false,
      passStep_pass_log, iterLog, List.nil_append, List.append_assoc,
      List.singleton_append, List.cons_append]

set_option maxHeartbeats 1000000 in
theorem applyIteration_skel_done (ps : Passes) (opts : Options) (sd : Bool)
    (a0 : List Node) :
    (applyIteration ps opts sd a0).skel_done
      = (sd || opts.pp_skeleton_preproc) := by
  cases h1 : opts.pp_skeleton_preproc <;> cases h2 : sd <;>
    simp only [applyIteration, h1, h2, passStep_skel_done, Bool.not_false,
      Bool.not_true, Bool.false_and, Bool.true_and, Bool.and_false,
      Bool.and_true, Bool.false_eq_true, Bool.true_eq_false, if_true, if_false,
      Bool.or_false, Bool.or_true, Bool.false_or, Bool.true_or, ite_true,
      ite_false, eq_self_iff_true]

/-- After `skel_done` has absorbed the skeleton option, the iteration log
is the skeleton-free one. -/
theorem iterLog_after_first (opts : Options) (sd : Bool) :
    iterLog opts (sd || opts.pp_skeleton_preproc) = iterLog opts true := by
  unfold iterLog
  by_cases h1 : opts.pp_skeleton_preproc <;> by_cases h2 : sd <;> simp [h1, h2]

/-- Counting inside an option-gated singleton segment of the pass log. -/
theorem count_gated (b : Bool) (x y : PassId) :
    (if b = true then [x] else []).count y
      = if b = true then (if x = y then 1 else 0) else 0 := by
  split
  · rw [List.count_singleton]
    split <;> simp_all
  · rfl

theorem iterLog_count (opts : Options) (sd : Bool) (pid : PassId) :
    (iterLog opts sd).count pid = expectedPassCount opts sd pid := by
  cases pid <;>
    simp [iterLog, expectedPassCount, List.count_append, List.count_cons,
      List.count_nil, count_gated] <;>
    split <;> simp_all

/-- The shape of a fixed-point loop run: as many log entries as
iterations; the first iteration logs `iterLog opts sd`, every later one
the skeleton-free log; when the loop finished, every iteration but the
last modified something and the last modified nothing; when the fuel ran
out, every iteration modified something. -/
theorem applyLoop_spec (env : Env) (ps : Passes) (fuel : Nat) (sd : Bool)
    (a0 : List Node) :
    ((applyLoop env ps fuel sd a0).pass_log.length
        = (applyLoop env ps fuel sd a0).iterations)
  ∧ ((applyLoop env ps fuel sd a0).pass_log = [] ∨
      (applyLoop env ps fuel sd a0).pass_log
        = iterLog env.options sd ::
            List.replicate ((applyLoop env ps fuel sd a0).iterations - 1)
              (iterLog env.options true))
  ∧ ((applyLoop env ps fuel sd a0).finished = true →
      1 ≤ (applyLoop env ps fuel sd a0).iterations
      ∧ (applyLoop env ps fuel sd a0).modified_log
          = List.replicate ((applyLoop env ps fuel sd a0).iterations - 1) true
              ++ [false])
  ∧ ((applyLoop env ps fuel sd a0).finished = false →
      (applyLoop env ps fuel sd a0).modified_log
        = List.replicate (applyLoop env ps fuel sd a0).iterations true) := by
  induction fuel generalizing sd a0 with
  | zero => simp [applyLoop]
  | succ n ih =>
      simp only [applyLoop]
      by_cases hm : (applyIteration ps env.options sd a0).modified = true
      · rw [if_pos hm]
        obtain ⟨ih1, ih2, ih3, ih4⟩ :=
          ih (applyIteration ps env.options sd a0).skel_done
            (applyIteration ps env.options sd a0).assertions
        set r := applyLoop env ps n (applyIteration ps env.options sd a0).skel_done
          (applyIteration ps env.options sd a0).assertions with hr
        refine ⟨?_, ?_, ?_, ?_⟩
        · show ((applyIteration ps env.options sd a0).pass_log
              :: r.pass_log).length = r.iterations + 1
          rw [List.length_cons, ih1]
        · right
          show (applyIteration ps env.options sd a0).pass_log :: r.pass_log
            = iterLog env.options sd
              :: List.replicate (r.iterations + 1 - 1) (iterLog env.options true)
          rw [applyIteration_pass_log, Nat.add_sub_cancel]
          congr 1
          rcases ih2 with h | h
          · have h0 : r.iterations = 0 := by rw [← ih1, h]; rfl
            rw [h, h0]
            rfl
          · have hge : 0 < r.iterations := by
              rw [← ih1, h]
              simp
            rw [applyIteration_skel_done, iterLog_after_first] at h
            rw [h, ← List.replicate_succ]
            congr 1
            omega
        · intro hf
          replace hf : r.finished = true := hf
          obtain ⟨hge, hml⟩ := ih3 hf
          refine ⟨?_, ?_⟩
          · show 1 ≤ r.iterations + 1
            omega
          show (applyIteration ps env.options sd a0).modified :: r.modified_log
            = List.replicate (r.iterations + 1 - 1) true ++ [false]
          rw [hm, hml, Nat.add_sub_cancel, ← Nat.succ_pred_eq_of_pos hge,
            List.replicate_succ]
          rfl
        · intro hf
          replace hf : r.finished = false := hf
          have hml := ih4 hf
          show (applyIteration ps env.options sd a0).modified :: r.modified_log
            = List.replicate (r.iterations + 1) true
          rw [hm, hml, List.replicate_succ]
      · rw [if_neg hm]
        have hm' : (applyIteration ps env.options sd a0).modified = false := by
          simpa using hm
        refine ⟨rfl, ?_, ?_, ?_⟩
        · right
          show [(applyIteration ps env.options sd a0).pass_log]
            = iterLog env.options sd
              :: List.replicate (1 - 1) (iterLog env.options true)
          rw [applyIteration_pass_log]
          rfl
        · intro _
          refine ⟨le_refl 1, ?_⟩
          show [(applyIteration ps env.options sd a0).modified]
            = List.replicate (1 - 1) true ++ [false]
          rw [hm']
          rfl
        · intro hf
          exact absurd hf (by simp)

/-- A list that does not contain `x`, replicated and flattened, still does
not contain `x`. -/
theorem count_flatten_replicate_zero {α : Type} [DecidableEq α]
    (l : List α) (x : α) (h : l.count x = 0) (n : Nat) :
    ((List.replicate n l).flatten).count x = 0 := by
  induction n with
  | zero => rfl
  | succ m ihm => simp [List.replicate_succ, List.count_append, h, ihm]

/-- Each `Preprocessor::apply` call runs skeleton_preproc at most once. -/
theorem apply_skelCount_le_one (env : Env) (ps : Passes) (fuel : Nat)
    (a0 : List Node) :
    (Preprocessor.apply env ps fuel a0).skelCount ≤ 1 := by
  unfold Preprocessor.apply
  split
  · simp [ApplyRun.skelCount]
  · obtain ⟨h1, h2, h3, h4⟩ := applyLoop_spec env ps fuel false a0
    unfold ApplyRun.skelCount
    rcases h2 with h | h
    · simp [h]
    · rw [h]
      simp only [List.flatten_cons, List.count_append]
      have hz : (iterLog env.options true).count PassId.skeleton_preproc = 0 := by
        rw [iterLog_count]
        simp [expectedPassCount]
      rw [count_flatten_replicate_zero _ _ hz, iterLog_count]
      simp only [expectedPassCount, Nat.add_zero]
      split <;> simp

/-! ## C6 — the fixed-point loop and skeleton_preproc -/

/-- **C6** counterexample: one `preprocess()` call over two assertion
levels applies skeleton_preproc twice (once per level): the `skel_done`
flag is local to each `Preprocessor::apply` call, so "at most once per
preprocess() call" fails as soon as two levels carry assertions. -/
theorem skeleton_twice_in_one_preprocess :
    (Preprocessor.preprocess (Env.make opts0) Passes.id 4
        [[mk_const .bool 0], [mk_const .bool 1]]).skelCount = 2
  ∧ ¬ (2 ≤ 1) := by
  constructor
  · rfl
  · decide

/-- **C6** amended: per level (per `Preprocessor::apply` call) the loop
resets the modified flag and applies each enabled pass once per iteration
(skeleton_preproc gated off after its first application), repeats exactly
until an iteration in which no pass modified any assertion, and applies
skeleton_preproc at most once per **level** — not at most once per
`preprocess()` call. -/
theorem preprocess_fixed_point_structure (env : Env) (ps : Passes)
    (fuel : Nat) (a0 : List Node) (sd : Bool) (pid : PassId) :
    ((iterLog env.options sd).count pid = expectedPassCount env.options sd pid)
  ∧ ((applyLoop env ps fuel sd a0).pass_log = [] ∨
      (applyLoop env ps fuel sd a0).pass_log
        = iterLog env.options sd ::
            List.replicate ((applyLoop env ps fuel sd a0).iterations - 1)
              (iterLog env.options true))
  ∧ ((applyLoop env ps fuel sd a0).finished = true →
      (applyLoop env ps fuel sd a0).modified_log
        = List.replicate ((applyLoop env ps fuel sd a0).iterations - 1) true
            ++ [false])
  ∧ ((Preprocessor.apply env ps fuel a0).skelCount ≤ 1) := by
  obtain ⟨h1, h2, h3, h4⟩ := applyLoop_spec env ps fuel sd a0
  exact ⟨iterLog_count env.options sd pid, h2, fun hf => (h3 hf).2,
    apply_skelCount_le_one env ps fuel a0⟩

/-- **C6** witness: a finished run over one level with identity passes:
one iteration, the full pass log, the final unmodified iteration, one
skeleton application. -/
theorem preprocess_fixed_point_witness :
    ((applyLoop (Env.make opts0) Passes.id 4 false [mk_const .bool 0]).finished
        = true)
  ∧ ((applyLoop (Env.make opts0) Passes.id 4 false
        [mk_const .bool 0]).modified_log
      = List.replicate
          ((applyLoop (Env.make opts0) Passes.id 4 false
            [mk_const .bool 0]).iterations - 1) true ++ [false]) :=
  ⟨rfl,
   (preprocess_fixed_point_structure (Env.make opts0) Passes.id 4
      [mk_const .bool 0] false .rewrite).2.2.1 rfl⟩

/-! ## C2 — the terminator -/

/-- The fixed-point loop's outcome does not depend on the environment's
terminator: no iteration queries it. -/
theorem applyLoop_terminator_irrelevant (opts : Options)
    (t₁ t₂ : Option (Unit → Bool)) (ps : Passes) (fuel : Nat) (sd : Bool)
    (a0 : List Node) :
    applyLoop ⟨opts, t₁⟩ ps fuel sd a0 = applyLoop ⟨opts, t₂⟩ ps fuel sd a0 := by
  induction fuel generalizing sd a0 with
  | zero => rfl
  | succ n ih => simp only [applyLoop, Env.options, ih]

/-- **C2** counterexample: with a terminator configured that always
returns true, the preprocessing engine still enters and completes a full
pass iteration — it performs 1 iteration, not 0 — because nothing in
`Preprocessor::apply`'s loop queries `Env::terminate`.  The claim's
"aborts before the iteration" behavior would leave 0 iterations. -/
theorem terminator_ignored_by_preprocessing :
    (Env.configure_terminator (Env.make opts0) (some fun _ => true)).terminate
      = true
  ∧ (Preprocessor.apply
        (Env.configure_terminator (Env.make opts0) (some fun _ => true))
        Passes.id 4 [mk_const .bool 0]).iterations = 1
  ∧ (1 : Nat) ≠ 0 :=
  ⟨rfl, rfl, by decide⟩

/-- **C2** amended: the engine in this snapshot never queries the
configured terminator: the preprocessing fixed-point loop and the whole
`preprocess()` run are independent of it, and the API's
`Bitwuzla::terminate()` is a stub that always returns false.  (The SAT
round and bit-blasting loops are in components outside the snapshot.) -/
theorem terminator_never_queried (opts : Options)
    (t₁ t₂ : Option (Unit → Bool)) (ps : Passes) (fuel : Nat) (sd : Bool)
    (a0 : List Node) (levels : List (List Node)) (bw : Bitwuzla) :
    applyLoop ⟨opts, t₁⟩ ps fuel sd a0 = applyLoop ⟨opts, t₂⟩ ps fuel sd a0
  ∧ Preprocessor.preprocess ⟨opts, t₁⟩ ps fuel levels
      = Preprocessor.preprocess ⟨opts, t₂⟩ ps fuel levels
  ∧ Bitwuzla.terminate bw = false := by
  refine ⟨applyLoop_terminator_irrelevant opts t₁ t₂ ps fuel sd a0, ?_, rfl⟩
  unfold Preprocessor.preprocess Preprocessor.apply
  congr 1
  apply List.map_congr_left
  intro a _
  split
  · rfl
  · exact applyLoop_terminator_irrelevant opts t₁ t₂ ps fuel false a

/-! ## C9 — closed Boolean assertions and the free-variable check -/

/-- **C9** (the code_bug evaluation): `assert_formula` accepts the
Boolean-sorted `v = v` and aborts on the BV-sorted bare variable `v`; the
debug check aborts on `[v = v]` alone, listing the free variable `v`; but
on `[∀ v. v = v, v = v]` — the same offending assertion preceded by a
quantified assertion sharing its subterm — the check passes, although
`v = v` still has the free variable `v`: the node cache shared across
assertions suppresses the second assertion's `free_vars` entry. -/
theorem check_no_free_variables_miss :
    (SolvingContext.assert_formula (SolvingContext.make opts0)
        (mk_equal (mk_var (.bv 1) 0) (mk_var (.bv 1) 0)) ≠ .aborted)
  ∧ (SolvingContext.assert_formula (SolvingContext.make opts0)
        (mk_var (.bv 1) 0) = .aborted)
  ∧ SolvingContext.check_no_free_variables
      [mk_forall (mk_var (.bv 1) 0)
          (mk_equal (mk_var (.bv 1) 0) (mk_var (.bv 1) 0)),
        mk_equal (mk_var (.bv 1) 0) (mk_var (.bv 1) 0)] = none
  ∧ freeVars (mk_equal (mk_var (.bv 1) 0) (mk_var (.bv 1) 0))
      = [mk_var (.bv 1) 0]
  ∧ SolvingContext.check_no_free_variables
      [mk_equal (mk_var (.bv 1) 0) (mk_var (.bv 1) 0)]
      = some (mk_equal (mk_var (.bv 1) 0) (mk_var (.bv 1) 0),
          [mk_var (.bv 1) 0]) := by
  refine ⟨?_, rfl, by decide, by decide, by decide⟩
  simp [SolvingContext.assert_formula, mk_equal, Node.ty, Ty.is_bool]

/-! ## Helper lemmas for the congruence engine (C1) -/

namespace FunSolver

theorem Apply.make_values (val : Node → Node) (a : Node) :
    (Apply.make val a).d_values = argValues val a := rfl

theorem Apply.make_value (val : Node → Node) (a : Node) :
    (Apply.make val a).d_value = val a := rfl

theorem Apply.make_apply (val : Node → Node) (a : Node) :
    (Apply.make val a).d_apply = a := rfl

/-- The invariant the check loop maintains: looking a value tuple up in a
function's model finds exactly (the `Apply` record of) the first
already-processed application of that function with that tuple. -/
def ModelsInv (val : Node → Node) (st : CheckState) (earlier : List Node) :
    Prop :=
  ∀ f t, ((st.d_fun_models f).getD []).find? (fun p => p.d_values == t)
    = (earlier.find? fun b => b.child0 == f && argValues val b == t).map
        (Apply.make val)

/-- One step of the check loop: under the invariant, the lemma it emits is
exactly the one `specLemmasGo` predicts, and the invariant is
preserved. -/
theorem checkStep_spec (val : Node → Node) (st : CheckState)
    (earlier : List Node) (a : Node) (hinv : ModelsInv val st earlier) :
    ((checkStep val st a).lemmas
      = st.lemmas ++ (match firstSameTuple val earlier a with
          | some b =>
              if val b ≠ val a then [add_function_congruence_lemma a b]
              else []
          | none => []))
  ∧ ModelsInv val (checkStep val st a) (earlier ++ [a]) := by
  have hkey := hinv a.child0 (argValues val a)
  rcases hfind : ((st.d_fun_models a.child0).getD []).find?
      (fun p => p.d_values == argValues val a) with _ | p
  · have hnone : (earlier.find? fun b =>
        b.child0 == a.child0 && argValues val b == argValues val a) = none :=
      Option.map_eq_none'.mp (hfind ▸ hkey.symm)
    constructor
    · simp only [checkStep, Apply.make_values, hfind]
      unfold firstSameTuple
      rw [hnone]
      simp
    · intro f t
      simp only [checkStep, Apply.make_values, hfind]
      by_cases hf : f = a.child0
      · rw [hf, if_pos rfl, Option.getD_some, List.find?_append,
          hinv a.child0 t, List.find?_append]
        cases hv : (earlier.find? fun b =>
            b.child0 == a.child0 && argValues val b == t) with
        | some c => rfl
        | none =>
            simp only [Option.none_or, Option.map_none']
            rw [List.find?_singleton, List.find?_singleton]
            simp only [Apply.make_values, beq_self_eq_true, Bool.true_and]
            split <;> rfl
      · rw [if_neg hf, hinv f t, List.find?_append, List.find?_singleton]
        have hc : (a.child0 == f) = false := by
          simp only [beq_eq_false_iff_ne, ne_eq]
          intro h
          exact hf h.symm
        rw [hc]
        simp
  · obtain ⟨b, hb, hpb⟩ := Option.map_eq_some'.mp (hfind ▸ hkey.symm)
    have hmodels : ∀ f t,
        ((if f = a.child0
            then some ((st.d_fun_models a.child0).getD [])
            else st.d_fun_models f).getD []).find?
          (fun p => p.d_values == t)
        = ((earlier ++ [a]).find? fun c =>
            c.child0 == f && argValues val c == t).map (Apply.make val) := by
      intro f t
      by_cases hf : f = a.child0
      · rw [hf, if_pos rfl, Option.getD_some, hinv a.child0 t,
          List.find?_append]
        cases hv : (earlier.find? fun c =>
            c.child0 == a.child0 && argValues val c == t) with
        | some c => rfl
        | none =>
            simp only [Option.none_or, Option.map_none']
            rw [List.find?_singleton]
            simp only [beq_self_eq_true, Bool.true_and]
            by_cases ht : (argValues val a == t) = true
            · exfalso
              have ht' : argValues val a = t := beq_iff_eq.mp ht
              rw [← ht'] at hv
              rw [hv] at hb
              exact Option.noConfusion hb
            · rw [if_neg (by simpa using ht)]
              rfl
      · rw [if_neg hf, hinv f t, List.find?_append, List.find?_singleton]
        have hc : (a.child0 == f) = false := by
          simp only [beq_eq_false_iff_ne, ne_eq]
          intro h
          exact hf h.symm
        rw [hc]
        simp
    have hvb : val b = p.d_value := by rw [← hpb]; rfl
    by_cases hne : p.d_value ≠ (Apply.make val a).d_value
    · constructor
      · simp only [checkStep, Apply.make_values, hfind]
        rw [if_pos hne]
        simp only [firstSameTuple, hb]
        have hval : val b ≠ val a := by
          rw [hvb]
          exact hne
        rw [if_pos hval, ← hpb]
        rfl
      · intro f t
        simp only [checkStep, Apply.make_values, hfind]
        rw [if_pos hne]
        exact hmodels f t
    · constructor
      · simp only [checkStep, Apply.make_values, hfind]
        rw [if_neg hne]
        simp only [firstSameTuple, hb]
        have hval : ¬ (val b ≠ val a) := by
          rw [hvb]
          exact hne
        rw [if_neg hval]
        simp
      · intro f t
        simp only [checkStep, Apply.make_values, hfind]
        rw [if_neg hne]
        exact hmodels f t

/-- Folding the check loop under the invariant collects exactly the
specified lemmas. -/
theorem check_fold_spec (val : Node → Node) (applies : List Node) :
    ∀ (st : CheckState) (earlier : List Node), ModelsInv val st earlier →
      (List.foldl (checkStep val) st applies).lemmas
        = st.lemmas ++ specLemmasGo val earlier applies := by
  induction applies with
  | nil =>
      intro st earlier _
      simp [specLemmasGo]
  | cons a rest ih =>
      intro st earlier hinv
      obtain ⟨hlem, hinv'⟩ := checkStep_spec val st earlier a hinv
      show (List.foldl (checkStep val) (checkStep val st a) rest).lemmas = _
      rw [ih (checkStep val st a) (earlier ++ [a]) hinv', hlem]
      simp only [specLemmasGo, List.append_assoc]

end FunSolver

/-! ## C1 — the congruence lemmas the check emits -/

/-- **C1** amended: after each SAT model the congruence engine scans the
registered applications in order; an application `a` triggers exactly the
congruence lemma `(∧ᵢ aᵢ = bᵢ) ⇒ a = b` against `b` when `b` is the
**first earlier** application of the same function whose argument
model-value tuple equals `a`'s and whose model value differs from `a`'s —
one lemma per conflicting application against the model's representative,
not one per conflicting pair. -/
theorem fun_check_emitted_lemmas (val : Node → Node) (applies : List Node) :
    (FunSolver.check val applies).lemmas = FunSolver.specLemmas val applies := by
  have h := FunSolver.check_fold_spec val applies
    { d_fun_models := fun _ => none, lemmas := [] } []
    (by intro f t; rfl)
  simpa [FunSolver.check, FunSolver.specLemmas] using h

/-- The concrete function symbol, arguments and model used by the C1
counterexample: three applications of `f : BV1 → BV1` whose arguments all
have model value 0, with `f` applied to the first two valued 0 and to the
third valued 1. -/
def cexF : Node := mk_const (Ty.fn [.bv 1, .bv 1]) 10

/-- First registered application of `cexF`. -/
def cexA : Node := mk_apply cexF [mk_const (.bv 1) 1]

/-- Second registered application of `cexF`. -/
def cexB : Node := mk_apply cexF [mk_const (.bv 1) 2]

/-- Third registered application of `cexF`. -/
def cexC : Node := mk_apply cexF [mk_const (.bv 1) 3]

/-- The model valuation of the counterexample: all three argument
constants are 0, `cexA` and `cexB` evaluate to 0, `cexC` to 1. -/
def cexVal : Node → Node := fun n =>
  if n = cexC then mk_value (.bv 1) 1
  else if n = cexA ∨ n = cexB then mk_value (.bv 1) 0
  else if n = mk_const (.bv 1) 1 ∨ n = mk_const (.bv 1) 2
      ∨ n = mk_const (.bv 1) 3 then mk_value (.bv 1) 0
  else n

/-- **C1** counterexample: the pair `(cexB, cexC)` consists of two
applications of the same function with pairwise equal argument model
values and differing own model values, so the claim requires the lemma
between them; the engine emits only the lemma between `cexC` and the
model's representative `cexA`, and no lemma mentioning `cexB` at all. -/
theorem congruence_lemma_only_against_representative :
    (cexB.child0 = cexC.child0
      ∧ FunSolver.argValues cexVal cexB = FunSolver.argValues cexVal cexC
      ∧ cexVal cexB ≠ cexVal cexC)
  ∧ (FunSolver.check cexVal [cexA, cexB, cexC]).lemmas
      = [FunSolver.add_function_congruence_lemma cexC cexA]
  ∧ FunSolver.add_function_congruence_lemma cexC cexB
      ∉ (FunSolver.check cexVal [cexA, cexB, cexC]).lemmas
  ∧ FunSolver.add_function_congruence_lemma cexB cexC
      ∉ (FunSolver.check cexVal [cexA, cexB, cexC]).lemmas := by decide

/-! ## Helper lemmas for model values (C4) -/

/-- The nested ITE the function-model builder folds up stays at the
codomain sort. -/
theorem fold_ite_ty (vars : List Node) (cod : Ty) :
    ∀ (fm : List FunSolver.Apply) (res0 : Node), res0.ty = cod →
      (∀ apl ∈ fm, apl.d_value.ty = cod) →
      (fm.foldl
        (fun res apl =>
          mk_ite (mk_nary .AND (List.zipWith mk_equal vars apl.d_values))
            apl.d_value res)
        res0).ty = cod := by
  intro fm
  induction fm with
  | nil => intro res0 h0 _; exact h0
  | cons x xs ih =>
      intro res0 h0 hv
      simp only [List.foldl_cons]
      apply ih
      · exact hv x (by simp)
      · intro apl hm
        exact hv apl (by simp [hm])

/-- A binder over at least one variable is a LAMBDA node. -/
theorem mk_binder_kind (body : Node) :
    ∀ (vars : List Node), vars ≠ [] →
      (mk_binder (vars ++ [body])).kind = .LAMBDA := by
  intro vars hne
  cases vars with
  | nil => exact absurd rfl hne
  | cons v rest =>
      cases rest with
      | nil => rfl
      | cons w rest' => rfl

/-- The sort of a binder over a non-function-sorted body: the function
sort of the bound variables' sorts over the body's sort. -/
theorem mk_binder_ty_cons (body : Node) (hb : body.ty.is_fun = false) :
    ∀ (vars : List Node) (v : Node),
      (mk_binder (v :: vars ++ [body])).ty
        = .fn ((v :: vars).map Node.ty ++ [body.ty]) := by
  intro vars
  induction vars with
  | nil =>
      intro v
      show (mk_lambda v body).ty = _
      show (match body.ty with
            | Ty.fn ts => Ty.fn (v.ty :: ts)
            | t => Ty.fn [v.ty, t]) = _
      cases hbt : body.ty <;> simp_all [Ty.is_fun, Node.ty]
  | cons w rest ih =>
      intro v
      show (mk_lambda v (mk_binder (w :: rest ++ [body]))).ty = _
      show (match (mk_binder (w :: rest ++ [body])).ty with
            | Ty.fn ts => Ty.fn (v.ty :: ts)
            | t => Ty.fn [v.ty, t]) = _
      rw [ih w]
      rfl

/-- Removing the last element and appending it back is the identity. -/
theorem dropLast_append_getLastD {α : Type} :
    ∀ (l : List α) (d : α), l ≠ [] → l.dropLast ++ [l.getLastD d] = l := by
  intro l
  induction l with
  | nil => intro d h; exact absurd rfl h
  | cons x xs ih =>
      intro d _
      cases xs with
      | nil => rfl
      | cons y ys =>
          have h := ih x (by simp)
          simp only [List.getLastD_cons] at h
          simp only [List.dropLast_cons₂, List.cons_append, List.getLastD_cons]
          rw [h]

/-- `FunSolver::value` on a function-sorted term with a model entry
returns a LAMBDA of the same sort (under well-typedness of the recorded
model values). -/
theorem funsolver_value_lambda (st : FunSolver.CheckState) (fresh : Nat)
    (fterm : Node) (ts : List Ty) (fm : List FunSolver.Apply)
    (hty : fterm.ty = .fn ts) (hlen : 2 ≤ ts.length)
    (hcod : (ts.getLastD .bool).is_fun = false)
    (hmodel : st.d_fun_models fterm = some fm)
    (hvals : ∀ apl ∈ fm, apl.d_value.ty = ts.getLastD .bool) :
    ∃ w, FunSolver.value st fresh fterm = .ok w
      ∧ w.kind = .LAMBDA ∧ w.ty = fterm.ty := by
  have hfun : fterm.ty.is_fun = true := by rw [hty]; rfl
  have hvars : (ts.dropLast.enum.map
      fun p => mk_var p.2 (fresh + p.1)) ≠ [] := by
    have hlength : (ts.dropLast.enum.map
        fun p => mk_var p.2 (fresh + p.1)).length = ts.length - 1 := by
      simp [List.length_dropLast]
    intro h
    rw [h] at hlength
    simp at hlength
    omega
  have hres : ((fm.foldl
      (fun res apl =>
        mk_ite (mk_nary .AND (List.zipWith mk_equal
          (ts.dropLast.enum.map fun p => mk_var p.2 (fresh + p.1))
          apl.d_values)) apl.d_value res)
      (mk_default_value (ts.getLastD .bool))).ty) = ts.getLastD .bool :=
    fold_ite_ty _ _ fm _ rfl hvals
  have hmapty : ((ts.dropLast.enum.map
      fun p => mk_var p.2 (fresh + p.1)).map Node.ty) = ts.dropLast := by
    rw [List.map_map]
    have heq : (Node.ty ∘ fun p : Nat × Ty => mk_var p.2 (fresh + p.1))
        = Prod.snd := rfl
    rw [heq, List.enum_map_snd]
  have hne : ts ≠ [] := by
    intro h
    rw [h] at hlen
    simp at hlen
  obtain ⟨v, rest, hcons⟩ := List.exists_cons_of_ne_nil hvars
  have hres2 := hcons ▸ hres
  simp only [FunSolver.value, hfun, Bool.not_true, Bool.false_eq_true,
    if_false, hmodel, hty, Ty.fun_types]
  rw [hcons]
  refine ⟨_, rfl, ?_, ?_⟩
  · exact mk_binder_kind _ (v :: rest) (by simp)
  · rw [mk_binder_ty_cons _ (by rw [hres2]; exact hcod) rest v, hres2,
      ← hcons, hmapty, dropLast_append_getLastD ts _ hne]

/-! ## C4 — get_value -/

/-- **C4** amended: `get_value(t)` requires the last `solve()` to have
returned SAT (a failed debug assertion otherwise); when the engine's value
computation throws `ComputeValueException` on an unregistered quantifier it
returns `t` unchanged; when the engine returns a value it returns that
value; and for a function-sorted term with a function-model entry, the
value provided (by `FunSolver::value`) is a **LAMBDA** term — not a VALUE
term — of the same sort as `t`. -/
theorem get_value_behavior (ctx : SolvingContext) (ev : EngineValue)
    (process : Node → Node) (term q v : Node)
    (st : FunSolver.CheckState) (fresh : Nat) (fterm : Node) (ts : List Ty)
    (fm : List FunSolver.Apply) :
    (ctx.d_sat_state ≠ .SAT → ctx.get_value ev process term = .aborted)
  ∧ (ctx.d_sat_state = .SAT → ev (process term) = .error q →
      ctx.get_value ev process term = .ok term)
  ∧ (ctx.d_sat_state = .SAT → ev (process term) = .ok v →
      ctx.get_value ev process term = .ok v)
  ∧ (fterm.ty = .fn ts → 2 ≤ ts.length →
      (ts.getLastD .bool).is_fun = false →
      st.d_fun_models fterm = some fm →
      (∀ apl ∈ fm, apl.d_value.ty = ts.getLastD .bool) →
      ∃ w, FunSolver.value st fresh fterm = .ok w
        ∧ w.kind = .LAMBDA ∧ w.ty = fterm.ty) := by
  refine ⟨?_, ?_, ?_, ?_⟩
  · intro h
    simp [SolvingContext.get_value, h]
  · intro hsat herr
    simp [SolvingContext.get_value, hsat, herr]
  · intro hsat hok
    simp [SolvingContext.get_value, hsat, hok]
  · intro h1 h2 h3 h4 h5
    exact funsolver_value_lambda st fresh fterm ts fm h1 h2 h3 h4 h5

/-- **C4** witness: the concrete one-application model of `cexF` gives a
LAMBDA value of `cexF`'s sort through the hypotheses of the theorem. -/
theorem get_value_behavior_witness :
    ∃ w, FunSolver.value (FunSolver.check cexVal [cexA]) 100 cexF = .ok w
      ∧ w.kind = .LAMBDA ∧ w.ty = cexF.ty :=
  (get_value_behavior { SolvingContext.make opts0 with d_sat_state := .SAT }
      (engineValueFun (FunSolver.check cexVal [cexA]) 100) (fun n => n)
      true_node true_node true_node (FunSolver.check cexVal [cexA]) 100 cexF
      [.bv 1, .bv 1] [FunSolver.Apply.make cexVal cexA]).2.2.2
    (by decide) (by decide) (by decide) (by decide) (by decide)

/-- **C4** counterexample: with the last solve SAT, `get_value` on the
function-sorted `cexF` (with a registered application) returns a node of
kind LAMBDA — not of kind VALUE as the claim states — though of the same
sort as `cexF`. -/
theorem get_value_fun_not_value_kind :
    ∃ w, SolvingContext.get_value
        { SolvingContext.make opts0 with d_sat_state := .SAT }
        (engineValueFun (FunSolver.check cexVal [cexA]) 100) (fun n => n) cexF
      = .ok w ∧ w.kind = .LAMBDA ∧ w.kind ≠ .VALUE ∧ w.ty = cexF.ty :=
  ⟨_, rfl, rfl, by decide, rfl⟩

end Bzla
